import Mathlib

/-!
Verification of the fybrik reconciler / module-selector / planner pipeline.

The definitions below are a shallow embedding of the Go sources:
* `manager/controllers/app/modules/moduleinterface.go` (module selector,
  dependency closure, cluster placement),
* `manager/controllers/app/fybrikapplication_controller.go` (reconciler),
* `manager/controllers/app/resource_gen.go` (plotter resource interface),
* `pkg/storage` provisioner (`ProvisionImpl.CreateDataset`),
* the gRPC data-catalog client (`grpcDataCatalog.GetDatasetInfo`).

Go maps iterated by the selector are embedded as association lists, whose
list order stands for the iteration order of one concrete run.
-/

namespace Fybrik

/-- `app.CapabilityType`: the capability requested from a module. -/
inductive CapabilityType where
  | read
  | copy
  | write
deriving DecidableEq, Repr

/-- `app.InterfaceDetails`: a (protocol, data format) pair. -/
structure InterfaceDetails where
  protocol : String
  dataFormat : String
deriving DecidableEq, Repr

/-- A source/sink pair from `ModuleInOut` (supported interfaces of a copy capability). -/
structure ModuleInOut where
  source : InterfaceDetails
  sink : InterfaceDetails
deriving DecidableEq, Repr

/-- A transform declared by a module capability (`cap.Actions` entries), matched by (ID, Level). -/
structure ModuleTransform where
  id : String
  level : Nat
deriving DecidableEq, Repr

/-- `pb.EnforcementAction` as used by the selector: matched by (Id, Level). -/
structure EnforcementAction where
  id : String
  level : Nat
deriving DecidableEq, Repr

/-- One capability block of a module (`ModuleCapability`). -/
structure ModuleCapability where
  capability : CapabilityType
  api : InterfaceDetails
  supportedInterfaces : List ModuleInOut
  actions : List ModuleTransform
deriving DecidableEq, Repr

/-- `app.DependencyType`; only `Module`-typed dependencies matter to `CheckDependencies`. -/
inductive DependencyType where
  | module
  | other
deriving DecidableEq, Repr

/-- One dependency declared in a module spec. -/
structure ModuleDependency where
  dtype : DependencyType
  name : String
deriving DecidableEq, Repr

/-- `app.FybrikModule`: name, capability blocks, and declared dependencies. -/
structure FybrikModule where
  name : String
  capabilities : List ModuleCapability
  dependencies : List ModuleDependency
deriving DecidableEq, Repr

/-- The module registry (`map[string]*app.FybrikModule`) embedded as an association
list; the list order is the iteration order of one concrete run of the Go map. -/
abbrev ModuleMap := List (String × FybrikModule)

/-- Map lookup `moduleMap[name]` (first entry with the given key). -/
def lookupModule (m : ModuleMap) (n : String) : Option FybrikModule :=
  match m.find? (fun p => p.1 == n) with
  | some p => some p.2
  | none => none

/-- `utils.GetModuleCapabilities`: the capability blocks of a module for the
requested capability (Go returns a has-capability flag together with the blocks;
the flag is true exactly when the returned list is nonempty). -/
def getModuleCapabilities (m : FybrikModule) (c : CapabilityType) : List ModuleCapability :=
  m.capabilities.filter (fun cap => cap.capability == c)

/-- The inputs of `modules.Selector` (capability, source/destination interfaces,
required enforcement actions, processing geography). -/
structure Selector where
  capability : CapabilityType
  source : InterfaceDetails
  destination : InterfaceDetails
  actions : List EnforcementAction
  geo : String
deriving DecidableEq, Repr

/-- `Selector.SupportsGovernanceAction`: some capability block for the requested
capability declares a transform with the action's ID and level. -/
def supportsGovernanceAction (s : Selector) (m : FybrikModule) (a : EnforcementAction) : Bool :=
  (getModuleCapabilities m s.capability).any
    (fun cap => cap.actions.any (fun act => act.id == a.id && act.level == a.level))

/-- `Selector.SupportsGovernanceActions`: every required action is supported. -/
def supportsGovernanceActions (s : Selector) (m : FybrikModule)
    (actions : List EnforcementAction) : Bool :=
  actions.all (fun a => supportsGovernanceAction s m a)

/-- `Selector.SupportsInterface`: read matches the API of some capability block
against the destination; copy matches some source/sink pair against both
endpoints; no branch handles write, so write never matches. -/
def supportsInterface (s : Selector) (m : FybrikModule) : Bool :=
  let caps := getModuleCapabilities m s.capability
  match s.capability with
  | .read => caps.any (fun cap =>
      cap.api.dataFormat == s.destination.dataFormat && cap.api.protocol == s.destination.protocol)
  | .copy => caps.any (fun cap =>
      cap.supportedInterfaces.any (fun inter =>
        inter.source.dataFormat == s.source.dataFormat
          && inter.source.protocol == s.source.protocol
          && inter.sink.dataFormat == s.destination.dataFormat
          && inter.sink.protocol == s.destination.protocol))
  | .write => false

/-- The loop of `CheckDependencies` over the dependency list: non-module
dependencies are skipped, absent ones are reported missing, present ones are
recorded and recursed into (through `recurse`, the recursive call on the
dependency's module). -/
def checkDepsList (recurse : FybrikModule → Option (List String × List String))
    (map : ModuleMap) : List ModuleDependency → Option (List String × List String)
  | [] => some ([], [])
  | dep :: rest =>
    if dep.dtype = DependencyType.module then
      match lookupModule map dep.name with
      | none =>
        match checkDepsList recurse map rest with
        | none => none
        | some (found, missing) => some (found, dep.name :: missing)
      | some sub =>
        match recurse sub, checkDepsList recurse map rest with
        | some (names, notFound), some (found, missing) =>
          some (dep.name :: (names ++ found), notFound ++ missing)
        | _, _ => none
    else
      checkDepsList recurse map rest

/-- `modules.CheckDependencies`, with an explicit recursion budget: the Go
function recurses on every present module-typed dependency without tracking
visited modules, so it is total only on acyclic dependency graphs. `none`
stands for exhausting the budget (the Go code would still be recursing). -/
def checkDependenciesFuel : Nat → FybrikModule → ModuleMap → Option (List String × List String)
  | 0, _, _ => none
  | Nat.succ fuel, m, map =>
    checkDepsList (fun sub => checkDependenciesFuel fuel sub map) map m.dependencies

/-- Result of `Selector.SelectModule`: either a module (with its dependency
closure), a not-found failure, or budget exhaustion (the Go run diverges). -/
inductive SelectResult where
  | found (m : FybrikModule) (deps : List FybrikModule)
  | notFound
  | outOfFuel
deriving DecidableEq, Repr

/-- The iteration of `SelectModule` over registry entries: the first module
passing interface, governance-action, and dependency checks is selected;
`SupportsDependencies` rejects a module whose dependency closure reports
missing names. -/
def selectModuleScan (fuel : Nat) (s : Selector) (map : ModuleMap) :
    List (String × FybrikModule) → SelectResult
  | [] => .notFound
  | (_, m) :: rest =>
    if supportsInterface s m then
      if supportsGovernanceActions s m s.actions then
        match checkDependenciesFuel fuel m map with
        | none => .outOfFuel
        | some (found, missing) =>
          if missing.isEmpty then
            .found m (found.filterMap (fun n => lookupModule map n))
          else
            selectModuleScan fuel s map rest
      else
        selectModuleScan fuel s map rest
    else
      selectModuleScan fuel s map rest

/-- `Selector.SelectModule`: a first-match scan over the registry in the
iteration order given by the list. -/
def selectModule (fuel : Nat) (s : Selector) (map : ModuleMap) : SelectResult :=
  selectModuleScan fuel s map map

/-- `multicluster.Cluster`: a cluster name with its region metadata. -/
structure Cluster where
  name : String
  region : String
deriving DecidableEq, Repr

/-- The message prefix `app.InvalidClusterConfiguration`. -/
def InvalidClusterConfiguration : String := "InvalidClusterConfiguration"

/-- `Selector.SelectCluster`: the target geography starts as the data geography,
is replaced by the processing geography for read, and for copy with no actions;
the first cluster whose region equals the target geography is returned, else an
`InvalidClusterConfiguration` error naming the module and the geography. -/
def selectCluster (s : Selector) (moduleName : String) (dataGeography : String)
    (clusters : List Cluster) : Except String String :=
  let geo :=
    if s.capability = CapabilityType.read then s.geo
    else if s.capability = CapabilityType.copy && s.actions.length = 0 then s.geo
    else dataGeography
  match clusters.find? (fun c => c.region == geo) with
  | some c => Except.ok c.name
  | none => Except.error (InvalidClusterConfiguration
      ++ "\nNo clusters have been found for running " ++ moduleName ++ " in " ++ geo)

/-- A module covers a required action when some of its capability blocks for the
requested capability lists a transform with equal identifier and level. -/
def ModuleCoversAction (s : Selector) (m : FybrikModule) (a : EnforcementAction) : Prop :=
  ∃ cap ∈ m.capabilities, cap.capability = s.capability ∧
    ∃ act ∈ cap.actions, act.id = a.id ∧ act.level = a.level

instance (s : Selector) (m : FybrikModule) (a : EnforcementAction) :
    Decidable (ModuleCoversAction s m a) := by
  unfold ModuleCoversAction
  infer_instance

theorem supportsGovernanceAction_iff (s : Selector) (m : FybrikModule) (a : EnforcementAction) :
    supportsGovernanceAction s m a = true ↔ ModuleCoversAction s m a := by
  simp only [supportsGovernanceAction, ModuleCoversAction, getModuleCapabilities,
    List.any_eq_true, List.mem_filter, Bool.and_eq_true, beq_iff_eq]
  constructor
  · rintro ⟨cap, ⟨hmem, hcap⟩, act, hact, hid, hlevel⟩
    exact ⟨cap, hmem, hcap, act, hact, hid, hlevel⟩
  · rintro ⟨cap, hmem, hcap, act, hact, hid, hlevel⟩
    exact ⟨cap, ⟨hmem, hcap⟩, act, hact, hid, hlevel⟩

theorem supportsGovernanceActions_iff (s : Selector) (m : FybrikModule)
    (actions : List EnforcementAction) :
    supportsGovernanceActions s m actions = true ↔ ∀ a ∈ actions, ModuleCoversAction s m a := by
  simp only [supportsGovernanceActions, List.all_eq_true]
  constructor
  · intro h a ha
    exact (supportsGovernanceAction_iff s m a).mp (h a ha)
  · intro h a ha
    exact (supportsGovernanceAction_iff s m a).mpr (h a ha)

/-- A registry entry that the scan of `SelectModule` skips: it fails the
interface check, the governance-action check, or has missing dependencies. -/
def ModuleFails (fuel : Nat) (s : Selector) (map : ModuleMap) (m : FybrikModule) : Prop :=
  supportsInterface s m = false ∨ supportsGovernanceActions s m s.actions = false ∨
    ∃ found missing, checkDependenciesFuel fuel m map = some (found, missing) ∧ missing ≠ []

/-- Characterization of a successful `SelectModule` scan: the selected module is
the first entry in the iteration order passing all three checks, and the
returned dependencies are the resolved dependency closure. -/
theorem selectModuleScan_found_iff (fuel : Nat) (s : Selector) (map : ModuleMap)
    (l : List (String × FybrikModule)) (m : FybrikModule) (deps : List FybrikModule) :
    selectModuleScan fuel s map l = SelectResult.found m deps ↔
      ∃ l₁ nm l₂ found,
        l = l₁ ++ (nm, m) :: l₂ ∧
        (∀ p ∈ l₁, ModuleFails fuel s map p.2) ∧
        supportsInterface s m = true ∧
        supportsGovernanceActions s m s.actions = true ∧
        checkDependenciesFuel fuel m map = some (found, []) ∧
        deps = found.filterMap (fun n => lookupModule map n) := by
  induction l with
  | nil =>
    simp only [selectModuleScan]
    constructor
    · intro h
      exact absurd h (by simp)
    · rintro ⟨l₁, nm, l₂, found, h, -⟩
      exact absurd h (by simp)
  | cons hd tl ih =>
    obtain ⟨nm₀, m₀⟩ := hd
    rw [selectModuleScan]
    by_cases hInt : supportsInterface s m₀ = true
    · rw [if_pos hInt]
      by_cases hAct : supportsGovernanceActions s m₀ s.actions = true
      · rw [if_pos hAct]
        rcases hdep : checkDependenciesFuel fuel m₀ map with - | ⟨found₀, missing₀⟩
        · constructor
          · intro h
            exact absurd h (by simp)
          · rintro ⟨l₁, nm, l₂, found, heq, hfails, hi, ha, hdep', hdeps⟩
            cases l₁ with
            | nil =>
              simp only [List.nil_append, List.cons.injEq] at heq
              obtain ⟨heq₁, -⟩ := heq
              obtain ⟨-, rfl⟩ := Prod.mk.injEq .. ▸ heq₁
              rw [hdep] at hdep'
              exact absurd hdep' (by simp)
            | cons p l₁' =>
              simp only [List.cons_append, List.cons.injEq] at heq
              obtain ⟨rfl, -⟩ := heq
              have hfail := hfails _ (List.mem_cons_self _ _)
              rcases hfail with hf | hf | ⟨f, miss, hf, -⟩
              · exact absurd hInt (by simp [hf])
              · exact absurd hAct (by simp [hf])
              · rw [hdep] at hf
                exact absurd hf (by simp)
        · dsimp only
          by_cases hmiss : missing₀.isEmpty = true
          · rw [if_pos hmiss]
            have hmiss' : missing₀ = [] := by
              cases missing₀ with
              | nil => rfl
              | cons a t => simp [List.isEmpty] at hmiss
            subst hmiss'
            constructor
            · intro h
              cases h
              refine ⟨[], nm₀, tl, found₀, rfl, by simp, hInt, hAct, hdep, rfl⟩
            · rintro ⟨l₁, nm, l₂, found, heq, hfails, hi, ha, hdep', hdeps⟩
              cases l₁ with
              | nil =>
                simp only [List.nil_append, List.cons.injEq] at heq
                obtain ⟨heq₁, -⟩ := heq
                obtain ⟨-, rfl⟩ := Prod.mk.injEq .. ▸ heq₁
                rw [hdep] at hdep'
                injection hdep' with hdep''
                injection hdep'' with h₁ h₂
                subst h₁
                subst hdeps
                rfl
              | cons p l₁' =>
                simp only [List.cons_append, List.cons.injEq] at heq
                obtain ⟨rfl, -⟩ := heq
                have hfail := hfails _ (List.mem_cons_self _ _)
                rcases hfail with hf | hf | ⟨f, miss, hf, hne⟩
                · exact absurd hInt (by simp [hf])
                · exact absurd hAct (by simp [hf])
                · rw [hdep] at hf
                  injection hf with hf'
                  injection hf' with h₁ h₂
                  exact absurd h₂.symm hne
          · rw [if_neg hmiss]
            have hne : missing₀ ≠ [] := by
              intro hc
              subst hc
              simp [List.isEmpty] at hmiss
            rw [ih]
            constructor
            · rintro ⟨l₁, nm, l₂, found, heq, hfails, hi, ha, hdep', hdeps⟩
              refine ⟨(nm₀, m₀) :: l₁, nm, l₂, found, by rw [heq]; rfl, ?_, hi, ha, hdep', hdeps⟩
              intro p hp
              rcases List.mem_cons.mp hp with rfl | hp'
              · exact Or.inr (Or.inr ⟨found₀, missing₀, hdep, hne⟩)
              · exact hfails p hp'
            · rintro ⟨l₁, nm, l₂, found, heq, hfails, hi, ha, hdep', hdeps⟩
              cases l₁ with
              | nil =>
                simp only [List.nil_append, List.cons.injEq] at heq
                obtain ⟨heq₁, -⟩ := heq
                obtain ⟨-, rfl⟩ := Prod.mk.injEq .. ▸ heq₁
                rw [hdep] at hdep'
                injection hdep' with hdep''
                injection hdep'' with h₁ h₂
                exact absurd h₂ hne
              | cons p l₁' =>
                simp only [List.cons_append, List.cons.injEq] at heq
                obtain ⟨rfl, htl⟩ := heq
                exact ⟨l₁', nm, l₂, found, htl, fun q hq => hfails q (List.mem_cons_of_mem _ hq),
                  hi, ha, hdep', hdeps⟩
      · rw [if_neg hAct, ih]
        have hAct' : supportsGovernanceActions s m₀ s.actions = false := by
          cases h : supportsGovernanceActions s m₀ s.actions
          · rfl
          · exact absurd h hAct
        constructor
        · rintro ⟨l₁, nm, l₂, found, heq, hfails, hi, ha, hdep', hdeps⟩
          refine ⟨(nm₀, m₀) :: l₁, nm, l₂, found, by rw [heq]; rfl, ?_, hi, ha, hdep', hdeps⟩
          intro p hp
          rcases List.mem_cons.mp hp with rfl | hp'
          · exact Or.inr (Or.inl hAct')
          · exact hfails p hp'
        · rintro ⟨l₁, nm, l₂, found, heq, hfails, hi, ha, hdep', hdeps⟩
          cases l₁ with
          | nil =>
            simp only [List.nil_append, List.cons.injEq] at heq
            obtain ⟨heq₁, -⟩ := heq
            obtain ⟨-, rfl⟩ := Prod.mk.injEq .. ▸ heq₁
            exact absurd ha hAct
          | cons p l₁' =>
            simp only [List.cons_append, List.cons.injEq] at heq
            obtain ⟨rfl, htl⟩ := heq
            exact ⟨l₁', nm, l₂, found, htl, fun q hq => hfails q (List.mem_cons_of_mem _ hq),
              hi, ha, hdep', hdeps⟩
    · rw [if_neg hInt, ih]
      have hInt' : supportsInterface s m₀ = false := by
        cases h : supportsInterface s m₀
        · rfl
        · exact absurd h hInt
      constructor
      · rintro ⟨l₁, nm, l₂, found, heq, hfails, hi, ha, hdep', hdeps⟩
        refine ⟨(nm₀, m₀) :: l₁, nm, l₂, found, by rw [heq]; rfl, ?_, hi, ha, hdep', hdeps⟩
        intro p hp
        rcases List.mem_cons.mp hp with rfl | hp'
        · exact Or.inl hInt'
        · exact hfails p hp'
      · rintro ⟨l₁, nm, l₂, found, heq, hfails, hi, ha, hdep', hdeps⟩
        cases l₁ with
        | nil =>
          simp only [List.nil_append, List.cons.injEq] at heq
          obtain ⟨heq₁, -⟩ := heq
          obtain ⟨-, rfl⟩ := Prod.mk.injEq .. ▸ heq₁
          exact absurd hi hInt
        | cons p l₁' =>
          simp only [List.cons_append, List.cons.injEq] at heq
          obtain ⟨rfl, htl⟩ := heq
          exact ⟨l₁', nm, l₂, found, htl, fun q hq => hfails q (List.mem_cons_of_mem _ hq),
            hi, ha, hdep', hdeps⟩

/-! Concrete fixtures used by counterexamples and witnesses. -/

/-- A read capability block serving (s3, csv) with no transforms. -/
def readCSVCap : ModuleCapability :=
  { capability := CapabilityType.read
    api := { protocol := "s3", dataFormat := "csv" }
    supportedInterfaces := []
    actions := [] }

/-- A module offering only `readCSVCap`. -/
def moduleA : FybrikModule :=
  { name := "module-a", capabilities := [readCSVCap], dependencies := [] }

/-- A second module offering only `readCSVCap`. -/
def moduleB : FybrikModule :=
  { name := "module-b", capabilities := [readCSVCap], dependencies := [] }

/-- A read request for (s3, csv) with no required actions. -/
def readSelector : Selector :=
  { capability := CapabilityType.read
    source := { protocol := "s3", dataFormat := "csv" }
    destination := { protocol := "s3", dataFormat := "csv" }
    actions := []
    geo := "thegreendragon" }

/-- C1: the claim asserts plan determinism across runs via a stable registry
iteration order.  The registry is a Go map, whose iteration order differs from
run to run; with two modules both satisfying the selection predicate, the two
iteration orders of the same registry contents select different modules. -/
theorem C1_two_orders_select_different_modules :
    ([("module-a", moduleA), ("module-b", moduleB)] : ModuleMap).Perm
        [("module-b", moduleB), ("module-a", moduleA)] ∧
    selectModule 1 readSelector [("module-a", moduleA), ("module-b", moduleB)] =
      SelectResult.found moduleA [] ∧
    selectModule 1 readSelector [("module-b", moduleB), ("module-a", moduleA)] =
      SelectResult.found moduleB [] ∧
    moduleA ≠ moduleB := by
  refine ⟨List.Perm.swap _ _ _, ?_, ?_, ?_⟩ <;> decide

/-- C1 (amended): for a fixed iteration order of the registry, module selection
is deterministic and behaves as a first-match scan over that order: a module is
selected exactly when it is the first entry passing the interface, action, and
dependency checks, and the returned dependencies are its resolved closure.
(Across runs, the order of a Go map is not stable, so two runs agree only up to
the iteration orders they observe.) -/
theorem C1_selection_is_first_match_scan (fuel : Nat) (s : Selector) (map : ModuleMap)
    (m : FybrikModule) (deps : List FybrikModule) :
    selectModule fuel s map = SelectResult.found m deps ↔
      ∃ l₁ nm l₂ found,
        map = l₁ ++ (nm, m) :: l₂ ∧
        (∀ p ∈ l₁, ModuleFails fuel s map p.2) ∧
        supportsInterface s m = true ∧
        supportsGovernanceActions s m s.actions = true ∧
        checkDependenciesFuel fuel m map = some (found, []) ∧
        deps = found.filterMap (fun n => lookupModule map n) :=
  selectModuleScan_found_iff fuel s map map m deps

/-- C2: the code places a write module at the data geography, although the
function's own comment and the spec say write runs at the processing location.
With data at `theshire` and processing at `neverland`, the selected cluster for
a write module is the `theshire` one. -/
theorem C2_write_placed_at_data_geography :
    selectCluster
      { capability := CapabilityType.write
        source := { protocol := "s3", dataFormat := "csv" }
        destination := { protocol := "s3", dataFormat := "csv" }
        actions := []
        geo := "neverland" }
      "module-write" "theshire"
      [{ name := "cluster-data", region := "theshire" },
       { name := "cluster-processing", region := "neverland" }] =
      Except.ok "cluster-data" := by
  rfl

/-- C3: a module is selected only when every required enforcement action is
covered by one of its own capability blocks for the requested capability; a
module missing support for one required action never passes the
`SupportsGovernanceActions` check, so actions are never split across modules. -/
theorem C3_selected_module_covers_all_actions (fuel : Nat) (s : Selector) (map : ModuleMap)
    (m : FybrikModule) (deps : List FybrikModule)
    (h : selectModule fuel s map = SelectResult.found m deps) :
    supportsGovernanceActions s m s.actions = true ∧
      ∀ a ∈ s.actions, ModuleCoversAction s m a := by
  obtain ⟨l₁, nm, l₂, found, -, -, -, ha, -, -⟩ :=
    (selectModuleScan_found_iff fuel s map map m deps).mp h
  exact ⟨ha, (supportsGovernanceActions_iff s m s.actions).mp ha⟩

/-- A module supporting the redact action at dataset level for read. -/
def moduleRedact : FybrikModule :=
  { name := "module-redact"
    capabilities := [{ capability := CapabilityType.read
                       api := { protocol := "s3", dataFormat := "csv" }
                       supportedInterfaces := []
                       actions := [{ id := "redact", level := 2 }] }]
    dependencies := [] }

/-- A read request for (s3, csv) requiring the redact action. -/
def redactSelector : Selector :=
  { readSelector with actions := [{ id := "redact", level := 2 }] }

/-- Witness for C3 at a concrete registry: the selected module covers the
required redact action. -/
theorem C3_witness :
    supportsGovernanceActions redactSelector moduleRedact redactSelector.actions = true ∧
      ∀ a ∈ redactSelector.actions, ModuleCoversAction redactSelector moduleRedact a :=
  C3_selected_module_covers_all_actions 1 redactSelector [("module-redact", moduleRedact)]
    moduleRedact [] (by decide)

/-! The gRPC data-catalog client (`grpcDataCatalog.GetDatasetInfo`). -/

/-- gRPC status codes as consulted by the client; `status.FromError` yields
`ok` for a nil error and `Unknown` (here an `other` code) for non-status errors. -/
inductive GrpcCode where
  | ok
  | invalidArgument
  | other (code : Nat)
deriving DecidableEq, Repr

/-- An error coming back from the catalog backend, with its gRPC status code. -/
structure BackendError where
  code : GrpcCode
  message : String
deriving DecidableEq, Repr

/-- `status.FromError`: the code of the error, `ok` when there is none. -/
def statusCode : Option BackendError → GrpcCode
  | none => GrpcCode.ok
  | some e => e.code

/-- The error returned by the catalog client: either the translated
`app.InvalidAssetID` error or the backend error passed through. -/
inductive CatalogClientError where
  | invalidAssetID
  | backend (e : BackendError)
deriving DecidableEq, Repr

/-- `grpcDataCatalog.GetDatasetInfo`: when the backend status code is
`InvalidArgument` the result is paired with the `InvalidAssetID` error,
otherwise the backend result and error are returned unchanged. -/
def grpcGetDatasetInfo (result : Option String) (err : Option BackendError) :
    Option String × Option CatalogClientError :=
  if statusCode err = GrpcCode.invalidArgument then
    (result, some CatalogClientError.invalidAssetID)
  else
    (result, err.map CatalogClientError.backend)

/-- C8: an `InvalidArgument` backend status is translated to `InvalidAssetID`;
every other backend error is returned unchanged (and no error stays no error),
with the backend result passed through in all cases. -/
theorem C8_catalog_error_translation (result : Option String) (err : Option BackendError) :
    (∀ e, err = some e → e.code = GrpcCode.invalidArgument →
      grpcGetDatasetInfo result err = (result, some CatalogClientError.invalidAssetID)) ∧
    (∀ e, err = some e → e.code ≠ GrpcCode.invalidArgument →
      grpcGetDatasetInfo result err = (result, some (CatalogClientError.backend e))) ∧
    (err = none → grpcGetDatasetInfo result err = (result, none)) := by
  refine ⟨?_, ?_, ?_⟩
  · rintro e rfl hcode
    simp [grpcGetDatasetInfo, statusCode, hcode]
  · rintro e rfl hcode
    simp [grpcGetDatasetInfo, statusCode, hcode]
  · rintro rfl
    simp [grpcGetDatasetInfo, statusCode]

/-- Witness for C8: translation and pass-through at concrete backend errors. -/
theorem C8_witness :
    grpcGetDatasetInfo none (some { code := GrpcCode.invalidArgument, message := "unknown id" }) =
      (none, some CatalogClientError.invalidAssetID) ∧
    grpcGetDatasetInfo none (some { code := GrpcCode.other 14, message := "unavailable" }) =
      (none, some (CatalogClientError.backend
        { code := GrpcCode.other 14, message := "unavailable" })) :=
  ⟨(C8_catalog_error_translation none _).1 _ rfl rfl,
   (C8_catalog_error_translation none _).2.1 _ rfl (by decide)⟩

/-! The freshness decision at the top of `FybrikApplicationReconciler.Reconcile`. -/

/-- `app.ResourceReference` (status.generated): the generated plotter reference
carrying the application generation it was built from. -/
structure ResourceReference where
  name : String
  nspace : String
  kind : String
  appVersion : Int
deriving DecidableEq, Repr

/-- `PlotterInterface.ResourceExists`: false for a nil reference or an empty
namespace, otherwise whether the referenced object is found in the cluster
(embedded as the list of present (name, namespace) pairs). -/
def resourceExists (store : List (String × String)) (ref : Option ResourceReference) : Bool :=
  match ref with
  | none => false
  | some r => if r.nspace = "" then false else decide ((r.name, r.nspace) ∈ store)

/-- `generationComplete` in `Reconcile`: the generated resource exists and its
appVersion equals the application's current generation. -/
def generationComplete (store : List (String × String)) (generated : Option ResourceReference)
    (appVersion : Int) : Bool :=
  resourceExists store generated &&
    (match generated with
     | some g => g.appVersion == appVersion
     | none => false)

/-- The two branches of `Reconcile` after the freshness test. -/
inductive ReconcileBranch where
  | replan
  | observeReadiness
deriving DecidableEq, Repr

/-- The freshness decision: re-plan when generation is not complete or the
observed generation differs; otherwise read the plotter's observed state. -/
def reconcileBranch (store : List (String × String)) (generated : Option ResourceReference)
    (observedGeneration appVersion : Int) : ReconcileBranch :=
  if !(generationComplete store generated appVersion) || observedGeneration != appVersion then
    ReconcileBranch.replan
  else
    ReconcileBranch.observeReadiness

/-- C9: the plotter's observed state is consulted exactly when the generated
reference exists (non-nil, non-empty namespace, object present) with appVersion
equal to the current generation and the observed generation matches; in every
other case, in particular whenever the generated appVersion is stale, the
reconciler re-plans, so a stale plotter observation never reaches the
readiness check. -/
theorem C9_stale_plotter_never_observed (store : List (String × String))
    (generated : Option ResourceReference) (observedGeneration appVersion : Int) :
    reconcileBranch store generated observedGeneration appVersion =
        ReconcileBranch.observeReadiness ↔
      (∃ g, generated = some g ∧ g.nspace ≠ "" ∧ (g.name, g.nspace) ∈ store ∧
        g.appVersion = appVersion) ∧ observedGeneration = appVersion := by
  cases generated with
  | none =>
    simp [reconcileBranch, generationComplete, resourceExists]
  | some g =>
    by_cases hns : g.nspace = ""
    · simp [reconcileBranch, generationComplete, resourceExists, hns]
    · by_cases hmem : (g.name, g.nspace) ∈ store
      · by_cases hv : g.appVersion = appVersion
        · by_cases hog : observedGeneration = appVersion
          · simp [reconcileBranch, generationComplete, resourceExists, hmem, hv, hog, hns]
          · simp [reconcileBranch, generationComplete, resourceExists, hmem, hv, hog, hns]
        · simp [reconcileBranch, generationComplete, resourceExists, hv, hns, hmem]
      · simp [reconcileBranch, generationComplete, resourceExists, hns, hmem]

/-! The storage provisioner (`ProvisionImpl.CreateDataset` over Dataset resources). -/

/-- `types.NamespacedName`. -/
structure NamespacedName where
  name : String
  nspace : String
deriving DecidableEq, Repr

/-- `storage.ProvisionedBucket`: bucket name, endpoint and credentials secret. -/
structure ProvisionedBucket where
  name : String
  endpoint : String
  secretRef : NamespacedName
deriving DecidableEq, Repr

/-- A Dataset resource, embedded by the fields the provisioner reads and
writes (`spec.local.*` and the labels). -/
structure DatasetResource where
  storeType : String
  secretName : String
  secretNamespace : String
  endpoint : String
  bucket : String
  provision : String
  labels : List (String × String)
deriving DecidableEq, Repr

/-- The Dataset resources present in the cluster, keyed by name and namespace. -/
abbrev DatasetStore := List (NamespacedName × DatasetResource)

/-- `getDatasetAsUnstructured` (client.Get): the resource at the reference. -/
def lookupDataset (st : DatasetStore) (ref : NamespacedName) : Option DatasetResource :=
  match st.find? (fun p => p.1 == ref) with
  | some p => some p.2
  | none => none

/-- `DeleteDataset` (client.Delete): drop the resource at the reference. -/
def removeDataset (st : DatasetStore) (ref : NamespacedName) : DatasetStore :=
  st.filter (fun p => !(p.1 == ref))

/-- `equal` in the provisioner: the requested bucket matches the existing
resource on bucket name, endpoint, secret name and secret namespace. -/
def equalBucket (required : ProvisionedBucket) (existing : DatasetResource) : Bool :=
  required.name == existing.bucket
    && required.endpoint == existing.endpoint
    && required.secretRef.name == existing.secretName
    && required.secretRef.nspace == existing.secretNamespace

/-- The Dataset resource built by `CreateDataset`: spec.local values plus
the owner label and `remove-on-delete=true`. -/
def newDatasetResource (bucket : ProvisionedBucket) (owner : NamespacedName) : DatasetResource :=
  { storeType := "COS"
    secretName := bucket.secretRef.name
    secretNamespace := bucket.secretRef.nspace
    endpoint := bucket.endpoint
    bucket := bucket.name
    provision := "true"
    labels := [("fybrik.io/owner", owner.nspace ++ "." ++ owner.name),
               ("remove-on-delete", "true")] }

/-- `ProvisionImpl.CreateDataset`: a matching existing resource is left alone;
a differing one is deleted and recreated; an absent one is created. -/
def createDataset (st : DatasetStore) (ref : NamespacedName) (bucket : ProvisionedBucket)
    (owner : NamespacedName) : DatasetStore :=
  match lookupDataset st ref with
  | some existing =>
    if equalBucket bucket existing then st
    else (ref, newDatasetResource bucket owner) :: removeDataset st ref
  | none => (ref, newDatasetResource bucket owner) :: st

theorem lookupDataset_cons_self (st : DatasetStore) (ref : NamespacedName)
    (res : DatasetResource) : lookupDataset ((ref, res) :: st) ref = some res := by
  simp [lookupDataset, List.find?]

theorem equalBucket_newDatasetResource (bucket : ProvisionedBucket) (owner : NamespacedName) :
    equalBucket bucket (newDatasetResource bucket owner) = true := by
  simp [equalBucket, newDatasetResource]

/-- C6: `CreateDataset` is a no-op when the existing resource matches the
requested bucket on name, endpoint and secret reference (so a second call with
the same arguments never mutates the store), and on a mismatch it deletes the
existing resource and creates one carrying the requested values, the owner
label and `remove-on-delete=true`. -/
theorem C6_createDataset_idempotent (st : DatasetStore) (ref : NamespacedName)
    (bucket : ProvisionedBucket) (owner : NamespacedName) :
    createDataset (createDataset st ref bucket owner) ref bucket owner =
      createDataset st ref bucket owner ∧
    (∀ ex, lookupDataset st ref = some ex → equalBucket bucket ex = true →
      createDataset st ref bucket owner = st) ∧
    (∀ ex, lookupDataset st ref = some ex → equalBucket bucket ex = false →
      createDataset st ref bucket owner =
        (ref, newDatasetResource bucket owner) :: removeDataset st ref ∧
      (newDatasetResource bucket owner).labels =
        [("fybrik.io/owner", owner.nspace ++ "." ++ owner.name),
         ("remove-on-delete", "true")]) := by
  have step : ∀ tail, createDataset ((ref, newDatasetResource bucket owner) :: tail)
      ref bucket owner = (ref, newDatasetResource bucket owner) :: tail := by
    intro tail
    rw [createDataset, lookupDataset_cons_self]
    simp [equalBucket_newDatasetResource]
  refine ⟨?_, ?_, ?_⟩
  · rcases h : lookupDataset st ref with - | ex
    · have hinner : createDataset st ref bucket owner =
          (ref, newDatasetResource bucket owner) :: st := by
        rw [createDataset, h]
      rw [hinner, step]
    · by_cases heq : equalBucket bucket ex = true
      · have hinner : createDataset st ref bucket owner = st := by
          simp [createDataset, h, heq]
        rw [hinner]
        exact hinner
      · have hinner : createDataset st ref bucket owner =
            (ref, newDatasetResource bucket owner) :: removeDataset st ref := by
          simp [createDataset, h, heq]
        rw [hinner, step]
  · intro ex h heq
    simp [createDataset, h, heq]
  · intro ex h heq
    refine ⟨?_, rfl⟩
    simp [createDataset, h, heq]

/-- Witness for C6: at a concrete store holding the resource a first call
created, a second call with the same bucket leaves the store unchanged. -/
theorem C6_witness :
    createDataset
      [(⟨"bucket-1", "fybrik-system"⟩,
        newDatasetResource ⟨"bucket-1", "s3.eu.example.com", ⟨"creds-1", "fybrik-system"⟩⟩
          ⟨"notebook", "default"⟩)]
      ⟨"bucket-1", "fybrik-system"⟩
      ⟨"bucket-1", "s3.eu.example.com", ⟨"creds-1", "fybrik-system"⟩⟩
      ⟨"notebook", "default"⟩ =
      [(⟨"bucket-1", "fybrik-system"⟩,
        newDatasetResource ⟨"bucket-1", "s3.eu.example.com", ⟨"creds-1", "fybrik-system"⟩⟩
          ⟨"notebook", "default"⟩)] :=
  (C6_createDataset_idempotent _ _ _ _).2.1 _ (by rfl) (by decide)

/-! The reconciler's planning pass (`FybrikApplicationReconciler.reconcile`),
its condition handling, and the readiness check (`checkReadiness`). -/

/-- `app.InvalidAssetID`. -/
def InvalidAssetID : String := "InvalidAssetID"

/-- `app.ReadAccessDenied`. -/
def ReadAccessDenied : String := "ReadAccessDenied"

/-- `app.CopyNotAllowed`. -/
def CopyNotAllowed : String := "CopyNotAllowed"

/-- `app.WriteNotAllowed`. -/
def WriteNotAllowed : String := "WriteNotAllowed"

/-- The application's conditions (`Ready`, `Deny`, `Error`) together with the
accumulated per-dataset messages. -/
structure Conditions where
  ready : Bool
  deny : Bool
  error : Bool
  messages : List (String × String)
deriving DecidableEq, Repr

/-- Modelled from the spec: `resetConditions` (a helper not under src/) clears
the three conditions and their messages before a planning pass or a readiness
check. -/
def resetConditions (_c : Conditions) : Conditions :=
  { ready := false, deny := false, error := false, messages := [] }

/-- Modelled from the spec: `setDenyCondition` (not under src/) raises the Deny
condition, accumulating the per-dataset message (spec 7: messages concatenate
per-dataset reasons). -/
def setDenyCondition (c : Conditions) (assetID msg : String) : Conditions :=
  { c with deny := true, messages := c.messages ++ [(assetID, msg)] }

/-- Modelled from the spec: `setErrorCondition` (not under src/) raises the
Error condition, accumulating the per-dataset message. -/
def setErrorCondition (c : Conditions) (assetID msg : String) : Conditions :=
  { c with error := true, messages := c.messages ++ [(assetID, msg)] }

/-- Modelled from the spec: `setReadyCondition` (not under src/) raises the
Ready condition. -/
def setReadyCondition (c : Conditions) (_msg : String) : Conditions :=
  { c with ready := true }

/-- Modelled from the spec: `errorOrDeny` (not under src/) tests whether an
Error or Deny condition has been recorded. -/
def errorOrDeny (c : Conditions) : Bool :=
  c.error || c.deny

/-- `AnalyzeError`: the four terminal error strings become a Deny condition,
anything else an Error condition; a nil error records nothing. -/
def analyzeError (c : Conditions) (assetID : String) (err : Option String) : Conditions :=
  match err with
  | none => c
  | some msg =>
    if msg = InvalidAssetID ∨ msg = ReadAccessDenied ∨ msg = CopyNotAllowed
        ∨ msg = WriteNotAllowed then
      setDenyCondition c assetID msg
    else
      setErrorCondition c assetID msg

/-- One provisioned-storage status entry (`app.DatasetDetails`). -/
structure DatasetDetailsStatus where
  datasetRef : String
  secretRef : String
deriving DecidableEq, Repr

/-- One data context of the application together with the outcomes of its
external calls: `construct` is the result of `constructDataInfo` (catalog
lookup), `selection` the result of `moduleManager.SelectModuleInstances`. -/
structure DatasetEntry where
  id : String
  construct : Except String Unit
  selection : Except String Unit

/-- Whether `constructDataInfo` succeeded for the entry. -/
def constructOk (e : DatasetEntry) : Bool :=
  match e.construct with
  | Except.ok _ => true
  | Except.error _ => false

/-- The externally visible effects of one planning pass, in order. -/
inductive RecEvent where
  | deleteBucket (datasetRef : String)
  | createOrUpdatePlotter
deriving DecidableEq, Repr

/-- Generic lookup in a string-keyed association list (a Go map). -/
def lookupKey {α : Type} (l : List (String × α)) (k : String) : Option α :=
  match l.find? (fun p => p.1 == k) with
  | some p => some p.2
  | none => none

/-- Map update `m[k] = v` on an association list. -/
def setKey {α : Type} : List (String × α) → String → α → List (String × α)
  | [], k, v => [(k, v)]
  | p :: rest, k, v => if p.1 == k then (k, v) :: rest else p :: setKey rest k v

/-- The inputs of one planning pass: the data contexts with their external-call
outcomes, the storage allocated by the module manager during selection
(`moduleManager.ProvisionedStorage`), the buckets already reported provisioned,
the previous `status.provisionedStorage`, and the previous conditions. -/
structure ModelInputs where
  entries : List DatasetEntry
  plannerStorage : List (String × DatasetDetailsStatus)
  readyRefs : List String
  oldStorage : List (String × DatasetDetailsStatus)
  c0 : Conditions

/-- The observable result of one planning pass. -/
structure ReconcileOutcome where
  conds : Conditions
  storage : List (String × DatasetDetailsStatus)
  events : List RecEvent
  generated : Bool
  requeueStorage : Bool

/-- The first per-dataset loop of `reconcile`: `constructDataInfo` failures are
analyzed into conditions and the loop continues; successes are collected as
requirements, in spec order. -/
def processDatasets (c : Conditions) : List DatasetEntry → Conditions × List DatasetEntry
  | [] => (c, [])
  | e :: rest =>
    match e.construct with
    | Except.error msg => processDatasets (analyzeError c e.id (some msg)) rest
    | Except.ok _ =>
      let r := processDatasets c rest
      (r.1, e :: r.2)

/-- The second per-dataset loop of `reconcile`: `SelectModuleInstances`
failures are analyzed into conditions and the loop continues. -/
def processSelections (c : Conditions) : List DatasetEntry → Conditions
  | [] => c
  | e :: rest =>
    match e.selection with
    | Except.error msg => processSelections (analyzeError c e.id (some msg)) rest
    | Except.ok _ => processSelections c rest

/-- The first per-dataset loop applied to the application's data list, after
the conditions were reset. -/
def phase1 (inp : ModelInputs) : Conditions × List DatasetEntry :=
  processDatasets (resetConditions inp.c0) inp.entries

/-- The second per-dataset loop applied to the collected requirements. -/
def phase2 (inp : ModelInputs) : Conditions :=
  processSelections (phase1 inp).1 (phase1 inp).2

/-- The entries of `status.provisionedStorage` that the planner did not
re-require, removed by the garbage-collection loop. -/
def gcRemoved (inp : ModelInputs) : List (String × DatasetDetailsStatus) :=
  inp.oldStorage.filter (fun p => (lookupKey inp.plannerStorage p.1).isNone)

/-- `status.provisionedStorage` after the garbage-collection loop and the
add-or-update loop over the planner's storage. -/
def gcStorageAfter (inp : ModelInputs) : List (String × DatasetDetailsStatus) :=
  inp.plannerStorage.foldl (fun st p => setKey st p.1 p.2)
    (inp.oldStorage.filter (fun p => (lookupKey inp.plannerStorage p.1).isSome))

/-- `FybrikApplicationReconciler.reconcile`: reset conditions; an empty data
list tears external resources down and becomes Ready; otherwise run the two
per-dataset loops, returning (no plotter) as soon as an Error or Deny condition
exists; then garbage-collect provisioned storage no longer required by the
planner (requesting bucket deletion for each orphan), install the newly
required entries, and only afterwards — and only when all buckets are reported
provisioned — create or update the plotter. -/
def reconcileModel (inp : ModelInputs) : ReconcileOutcome :=
  if inp.entries.isEmpty then
    { conds := setReadyCondition (resetConditions inp.c0) ""
      storage := []
      events := inp.oldStorage.map (fun p => RecEvent.deleteBucket p.2.datasetRef)
      generated := false
      requeueStorage := false }
  else if errorOrDeny (phase1 inp).1 then
    { conds := (phase1 inp).1, storage := inp.oldStorage, events := []
      generated := false, requeueStorage := false }
  else if errorOrDeny (phase2 inp) then
    { conds := phase2 inp, storage := inp.oldStorage, events := []
      generated := false, requeueStorage := false }
  else if (gcStorageAfter inp).all (fun p => inp.readyRefs.contains p.2.datasetRef) then
    { conds := phase2 inp, storage := gcStorageAfter inp
      events := (gcRemoved inp).map (fun p => RecEvent.deleteBucket p.2.datasetRef)
        ++ [RecEvent.createOrUpdatePlotter]
      generated := true, requeueStorage := false }
  else
    { conds := phase2 inp, storage := gcStorageAfter inp
      events := (gcRemoved inp).map (fun p => RecEvent.deleteBucket p.2.datasetRef)
      generated := false, requeueStorage := true }

/-- `checkReadiness`: reset conditions; an observed plotter error becomes an
Error condition; a not-yet-ready plotter records nothing; a ready plotter sets
the Ready condition once asset registration succeeded (`registrationOK` stands
for the registration loop completing without an early return). -/
def checkReadinessModel (c0 : Conditions) (observedReady : Bool) (observedError : String)
    (registrationOK : Bool) : Conditions :=
  let c := resetConditions c0
  if observedError ≠ "" then setErrorCondition c "" observedError
  else if !observedReady then c
  else if !registrationOK then c
  else setReadyCondition c ""

/-- Whether both per-dataset loops completed without raising a condition. -/
def planningSucceeded (inp : ModelInputs) : Bool :=
  !(errorOrDeny (phase1 inp).1) && !(errorOrDeny (phase2 inp))

theorem analyzeError_ready (c : Conditions) (id : String) (err : Option String) :
    (analyzeError c id err).ready = c.ready := by
  cases err with
  | none => rfl
  | some msg =>
    rw [analyzeError]
    split <;> rfl

theorem processDatasets_ready (l : List DatasetEntry) :
    ∀ c : Conditions, (processDatasets c l).1.ready = c.ready := by
  induction l with
  | nil => intro c; rfl
  | cons e rest ih =>
    intro c
    rw [processDatasets]
    cases e.construct with
    | error msg => rw [ih, analyzeError_ready]
    | ok u => exact ih c

theorem processSelections_ready (l : List DatasetEntry) :
    ∀ c : Conditions, (processSelections c l).ready = c.ready := by
  induction l with
  | nil => intro c; rfl
  | cons e rest ih =>
    intro c
    rw [processSelections]
    cases e.selection with
    | error msg => rw [ih, analyzeError_ready]
    | ok u => exact ih c

theorem analyzeError_some_errorOrDeny (c : Conditions) (id msg : String) :
    errorOrDeny (analyzeError c id (some msg)) = true := by
  rw [analyzeError]
  split <;> simp [errorOrDeny, setDenyCondition, setErrorCondition]

theorem analyzeError_errorOrDeny_mono (c : Conditions) (id : String) (err : Option String)
    (h : errorOrDeny c = true) : errorOrDeny (analyzeError c id err) = true := by
  cases err with
  | none => exact h
  | some msg => exact analyzeError_some_errorOrDeny c id msg

theorem processDatasets_errorOrDeny_mono (l : List DatasetEntry) :
    ∀ c : Conditions, errorOrDeny c = true → errorOrDeny (processDatasets c l).1 = true := by
  induction l with
  | nil => intro c h; exact h
  | cons e rest ih =>
    intro c h
    rw [processDatasets]
    cases e.construct with
    | error msg => exact ih _ (analyzeError_errorOrDeny_mono c e.id _ h)
    | ok u => exact ih c h

theorem processSelections_errorOrDeny_mono (l : List DatasetEntry) :
    ∀ c : Conditions, errorOrDeny c = true → errorOrDeny (processSelections c l) = true := by
  induction l with
  | nil => intro c h; exact h
  | cons e rest ih =>
    intro c h
    rw [processSelections]
    cases e.selection with
    | error msg => exact ih _ (analyzeError_errorOrDeny_mono c e.id _ h)
    | ok u => exact ih c h

theorem processDatasets_fail (l : List DatasetEntry) (e : DatasetEntry) (msg : String)
    (he : e ∈ l) (herr : e.construct = Except.error msg) :
    ∀ c : Conditions, errorOrDeny (processDatasets c l).1 = true := by
  induction l with
  | nil => cases he
  | cons e₀ rest ih =>
    intro c
    rw [processDatasets]
    rcases List.mem_cons.mp he with rfl | he'
    · rw [herr]
      exact processDatasets_errorOrDeny_mono rest _ (analyzeError_some_errorOrDeny c e.id msg)
    · cases h₀ : e₀.construct with
      | error m => exact ih he' _
      | ok u => exact ih he' c

theorem processSelections_fail (l : List DatasetEntry) (e : DatasetEntry) (msg : String)
    (he : e ∈ l) (herr : e.selection = Except.error msg) :
    ∀ c : Conditions, errorOrDeny (processSelections c l) = true := by
  induction l with
  | nil => cases he
  | cons e₀ rest ih =>
    intro c
    rw [processSelections]
    rcases List.mem_cons.mp he with rfl | he'
    · rw [herr]
      exact processSelections_errorOrDeny_mono rest _ (analyzeError_some_errorOrDeny c e.id msg)
    · cases h₀ : e₀.selection with
      | error m => exact ih he' _
      | ok u => exact ih he' c

theorem analyzeError_messages_sub (c : Conditions) (id : String) (err : Option String)
    (m : String × String) (h : m ∈ c.messages) : m ∈ (analyzeError c id err).messages := by
  cases err with
  | none => exact h
  | some msg =>
    rw [analyzeError]
    split <;> simp [setDenyCondition, setErrorCondition] <;> exact Or.inl h

theorem analyzeError_some_mem (c : Conditions) (id msg : String) :
    (id, msg) ∈ (analyzeError c id (some msg)).messages := by
  rw [analyzeError]
  split <;> simp [setDenyCondition, setErrorCondition]

theorem processDatasets_messages_sub (l : List DatasetEntry) :
    ∀ (c : Conditions) (m : String × String), m ∈ c.messages →
      m ∈ (processDatasets c l).1.messages := by
  induction l with
  | nil => intro c m h; exact h
  | cons e rest ih =>
    intro c m h
    rw [processDatasets]
    cases e.construct with
    | error msg => exact ih _ m (analyzeError_messages_sub c e.id _ m h)
    | ok u => exact ih c m h

theorem processSelections_messages_sub (l : List DatasetEntry) :
    ∀ (c : Conditions) (m : String × String), m ∈ c.messages →
      m ∈ (processSelections c l).messages := by
  induction l with
  | nil => intro c m h; exact h
  | cons e rest ih =>
    intro c m h
    rw [processSelections]
    cases e.selection with
    | error msg => exact ih _ m (analyzeError_messages_sub c e.id _ m h)
    | ok u => exact ih c m h

theorem processDatasets_records (l : List DatasetEntry) (e : DatasetEntry) (msg : String)
    (he : e ∈ l) (herr : e.construct = Except.error msg) :
    ∀ c : Conditions, (e.id, msg) ∈ (processDatasets c l).1.messages := by
  induction l with
  | nil => cases he
  | cons e₀ rest ih =>
    intro c
    rw [processDatasets]
    rcases List.mem_cons.mp he with rfl | he'
    · rw [herr]
      exact processDatasets_messages_sub rest _ _ (analyzeError_some_mem c e.id msg)
    · cases h₀ : e₀.construct with
      | error m => exact ih he' _
      | ok u => exact ih he' c

theorem processSelections_records (l : List DatasetEntry) (e : DatasetEntry) (msg : String)
    (he : e ∈ l) (herr : e.selection = Except.error msg) :
    ∀ c : Conditions, (e.id, msg) ∈ (processSelections c l).messages := by
  induction l with
  | nil => cases he
  | cons e₀ rest ih =>
    intro c
    rw [processSelections]
    rcases List.mem_cons.mp he with rfl | he'
    · rw [herr]
      exact processSelections_messages_sub rest _ _ (analyzeError_some_mem c e.id msg)
    · cases h₀ : e₀.selection with
      | error m => exact ih he' _
      | ok u => exact ih he' c

theorem processDatasets_requirements (l : List DatasetEntry) :
    ∀ c : Conditions, (processDatasets c l).2 = l.filter constructOk := by
  induction l with
  | nil => intro c; rfl
  | cons e rest ih =>
    intro c
    rw [processDatasets]
    cases h : e.construct with
    | error msg =>
      have hco : constructOk e = false := by simp [constructOk, h]
      dsimp only
      rw [List.filter_cons, hco, ih]
      simp
    | ok u =>
      have hco : constructOk e = true := by simp [constructOk, h]
      dsimp only
      rw [List.filter_cons, hco, ih]
      simp

theorem reconcileModel_conds_early1 (inp : ModelInputs) (hE : inp.entries.isEmpty = false)
    (h1 : errorOrDeny (phase1 inp).1 = true) :
    reconcileModel inp =
      { conds := (phase1 inp).1, storage := inp.oldStorage, events := []
        generated := false, requeueStorage := false } := by
  rw [reconcileModel, if_neg (by simp [hE]), if_pos h1]

theorem reconcileModel_conds_early2 (inp : ModelInputs) (hE : inp.entries.isEmpty = false)
    (h1 : errorOrDeny (phase1 inp).1 = false) (h2 : errorOrDeny (phase2 inp) = true) :
    reconcileModel inp =
      { conds := phase2 inp, storage := inp.oldStorage, events := []
        generated := false, requeueStorage := false } := by
  rw [reconcileModel, if_neg (by simp [hE]), if_neg (by simp [h1]), if_pos h2]

theorem reconcileModel_success (inp : ModelInputs) (hE : inp.entries.isEmpty = false)
    (h1 : errorOrDeny (phase1 inp).1 = false) (h2 : errorOrDeny (phase2 inp) = false) :
    (reconcileModel inp).storage = gcStorageAfter inp ∧
    (reconcileModel inp).conds = phase2 inp ∧
    (reconcileModel inp).generated =
      (gcStorageAfter inp).all (fun p => inp.readyRefs.contains p.2.datasetRef) ∧
    (reconcileModel inp).events =
      (gcRemoved inp).map (fun p => RecEvent.deleteBucket p.2.datasetRef) ++
        (if (gcStorageAfter inp).all (fun p => inp.readyRefs.contains p.2.datasetRef) then
          [RecEvent.createOrUpdatePlotter] else []) := by
  rw [reconcileModel, if_neg (by simp [hE]), if_neg (by simp [h1]), if_neg (by simp [h2])]
  by_cases hready : (gcStorageAfter inp).all (fun p => inp.readyRefs.contains p.2.datasetRef)
  · rw [if_pos hready, if_pos hready]
    exact ⟨rfl, rfl, hready.symm, rfl⟩
  · rw [if_neg hready, if_neg hready]
    simp only [Bool.not_eq_true] at hready
    exact ⟨rfl, rfl, hready.symm, by simp⟩

theorem processDatasets_all_ok (l : List DatasetEntry)
    (hall : ∀ e ∈ l, constructOk e = true) :
    ∀ c : Conditions, (processDatasets c l).1 = c := by
  induction l with
  | nil => intro c; rfl
  | cons e rest ih =>
    intro c
    rw [processDatasets]
    cases h : e.construct with
    | error msg =>
      have := hall e (List.mem_cons_self _ _)
      simp [constructOk, h] at this
    | ok u =>
      dsimp only
      exact ih (fun e' he' => hall e' (List.mem_cons_of_mem _ he')) c

/-- C4: every per-dataset failure of the catalog/construction loop is recorded
as a condition while the loop keeps going (even failures of later datasets are
recorded); the same holds for the module-selection loop once construction
succeeded everywhere; and whenever an Error or Deny condition was recorded, the
pass ends without creating or updating the plotter. -/
theorem C4_error_propagation (inp : ModelInputs) :
    (∀ e ∈ inp.entries, ∀ msg, e.construct = Except.error msg →
      (e.id, msg) ∈ (reconcileModel inp).conds.messages ∧
        errorOrDeny (reconcileModel inp).conds = true) ∧
    ((∀ e ∈ inp.entries, constructOk e = true) →
      ∀ e ∈ inp.entries, ∀ msg, e.selection = Except.error msg →
        (e.id, msg) ∈ (reconcileModel inp).conds.messages ∧
          errorOrDeny (reconcileModel inp).conds = true) ∧
    (errorOrDeny (reconcileModel inp).conds = true →
      (reconcileModel inp).generated = false ∧
        RecEvent.createOrUpdatePlotter ∉ (reconcileModel inp).events) := by
  refine ⟨?_, ?_, ?_⟩
  · intro e he msg herr
    have hE : inp.entries.isEmpty = false := by
      cases hl : inp.entries with
      | nil => rw [hl] at he; cases he
      | cons a t => rfl
    have h1 : errorOrDeny (phase1 inp).1 = true :=
      processDatasets_fail inp.entries e msg he herr _
    have hc : (reconcileModel inp).conds = (phase1 inp).1 := by
      simp [reconcileModel, hE, h1]
    rw [hc]
    exact ⟨processDatasets_records inp.entries e msg he herr _, h1⟩
  · intro hall e he msg herr
    have hE : inp.entries.isEmpty = false := by
      cases hl : inp.entries with
      | nil => rw [hl] at he; cases he
      | cons a t => rfl
    have hp1 : (phase1 inp).1 = resetConditions inp.c0 :=
      processDatasets_all_ok inp.entries hall _
    have h1 : errorOrDeny (phase1 inp).1 = false := by
      rw [hp1]; rfl
    have hreq : (phase1 inp).2 = inp.entries := by
      rw [phase1, processDatasets_requirements]
      exact List.filter_eq_self.mpr hall
    have h2 : errorOrDeny (phase2 inp) = true := by
      rw [phase2, hreq]
      exact processSelections_fail inp.entries e msg he herr _
    have hc : (reconcileModel inp).conds = phase2 inp := by
      simp [reconcileModel, hE, h1, h2]
    rw [hc]
    refine ⟨?_, h2⟩
    rw [phase2, hreq]
    exact processSelections_records inp.entries e msg he herr _
  · intro h
    by_cases hE : inp.entries.isEmpty
    · simp [reconcileModel, hE, errorOrDeny, setReadyCondition, resetConditions] at h
    · simp only [Bool.not_eq_true] at hE
      by_cases h1 : errorOrDeny (phase1 inp).1
      · rw [reconcileModel_conds_early1 inp hE h1]
        exact ⟨rfl, by simp⟩
      · simp only [Bool.not_eq_true] at h1
        by_cases h2 : errorOrDeny (phase2 inp)
        · rw [reconcileModel_conds_early2 inp hE h1 h2]
          exact ⟨rfl, by simp⟩
        · simp only [Bool.not_eq_true] at h2
          rw [(reconcileModel_success inp hE h1 h2).2.1, h2] at h
          cases h

/-- A failing-construction entry fixture. -/
def entryBadCatalog : DatasetEntry :=
  { id := "s3/missing-dataset", construct := Except.error "InvalidAssetID"
    selection := Except.ok () }

/-- A successful entry fixture. -/
def entryGood : DatasetEntry :=
  { id := "s3/allow-dataset", construct := Except.ok (), selection := Except.ok () }

/-- A fixture planning pass: the first dataset fails its catalog lookup, the
second succeeds. -/
def inputsWithCatalogFailure : ModelInputs :=
  { entries := [entryBadCatalog, entryGood]
    plannerStorage := []
    readyRefs := []
    oldStorage := []
    c0 := { ready := false, deny := false, error := false, messages := [] } }

/-- Witness for C4: on the fixture pass the catalog failure of the first
dataset is recorded and no plotter is created. -/
theorem C4_witness :
    ((entryBadCatalog.id, "InvalidAssetID") ∈
        (reconcileModel inputsWithCatalogFailure).conds.messages ∧
      errorOrDeny (reconcileModel inputsWithCatalogFailure).conds = true) ∧
    ((reconcileModel inputsWithCatalogFailure).generated = false ∧
      RecEvent.createOrUpdatePlotter ∉ (reconcileModel inputsWithCatalogFailure).events) := by
  have h := C4_error_propagation inputsWithCatalogFailure
  have h₁ := h.1 entryBadCatalog (List.mem_cons_self _ _) "InvalidAssetID" (by rfl)
  exact ⟨h₁, h.2.2 h₁.2⟩

/-- C7: neither a planning pass nor a readiness check can leave the Deny and
Ready conditions simultaneously true — both reset the conditions first, a
planning pass sets Ready only on the empty-data path where no denial is
analyzed, and the readiness check never records a denial. -/
theorem C7_deny_ready_mutual_exclusion (inp : ModelInputs) (c0 : Conditions)
    (observedReady : Bool) (observedError : String) (registrationOK : Bool) :
    ¬((reconcileModel inp).conds.deny = true ∧ (reconcileModel inp).conds.ready = true) ∧
    ¬((checkReadinessModel c0 observedReady observedError registrationOK).deny = true ∧
      (checkReadinessModel c0 observedReady observedError registrationOK).ready = true) := by
  constructor
  · rintro ⟨hdeny, hready⟩
    by_cases hE : inp.entries.isEmpty
    · simp [reconcileModel, hE, setReadyCondition, resetConditions] at hdeny
    · simp only [Bool.not_eq_true] at hE
      have hp1r : (phase1 inp).1.ready = false := by
        rw [phase1, processDatasets_ready]
        rfl
      have hp2r : (phase2 inp).ready = false := by
        rw [phase2, processSelections_ready]
        exact hp1r
      have hr : (reconcileModel inp).conds.ready = false := by
        by_cases h1 : errorOrDeny (phase1 inp).1
        · rw [reconcileModel_conds_early1 inp hE h1]
          exact hp1r
        · simp only [Bool.not_eq_true] at h1
          by_cases h2 : errorOrDeny (phase2 inp)
          · rw [reconcileModel_conds_early2 inp hE h1 h2]
            exact hp2r
          · simp only [Bool.not_eq_true] at h2
            rw [(reconcileModel_success inp hE h1 h2).2.1]
            exact hp2r
      rw [hr] at hready
      cases hready
  · rintro ⟨hdeny, hready⟩
    by_cases herr : observedError ≠ ""
    · simp [checkReadinessModel, herr, setErrorCondition, resetConditions] at hdeny
    · by_cases hor : observedReady
      · by_cases hreg : registrationOK
        · simp [checkReadinessModel, herr, hor, hreg, setReadyCondition,
            resetConditions] at hdeny
        · simp [checkReadinessModel, herr, hor, hreg, resetConditions] at hdeny
      · simp [checkReadinessModel, herr, hor, resetConditions] at hdeny

theorem lookupKey_nil {α : Type} (k : String) : lookupKey ([] : List (String × α)) k = none :=
  rfl

theorem lookupKey_cons {α : Type} (p : String × α) (l : List (String × α)) (k : String) :
    lookupKey (p :: l) k = if p.1 == k then some p.2 else lookupKey l k := by
  rw [lookupKey, List.find?]
  by_cases h : p.1 == k
  · rw [h]
    simp [h]
  · simp only [Bool.not_eq_true] at h
    rw [h]
    simp [h, lookupKey]

theorem lookupKey_filter {α : Type} (l : List (String × α)) (q : String → Bool) (k : String) :
    lookupKey (l.filter (fun p => q p.1)) k = if q k then lookupKey l k else none := by
  induction l with
  | nil =>
    rw [List.filter_nil, lookupKey_nil]
    split <;> rfl
  | cons p rest ih =>
    rw [List.filter_cons]
    by_cases hq : q p.1
    · rw [if_pos hq, lookupKey_cons, lookupKey_cons]
      by_cases hpk : p.1 == k
      · have hk : q k = true := by
          rw [← beq_iff_eq.mp hpk]
          exact hq
        rw [if_pos hpk, if_pos hk, if_pos hpk]
      · simp only [Bool.not_eq_true] at hpk
        rw [hpk, if_neg (by simp), ih]
        split <;> simp
    · simp only [Bool.not_eq_true] at hq
      rw [hq, if_neg (by simp), ih, lookupKey_cons]
      by_cases hk : q k
      · have hpk : (p.1 == k) = false := by
          rcases h : p.1 == k with - | -
          · rfl
          · rw [beq_iff_eq.mp h] at hq
            rw [hq] at hk
            cases hk
        rw [if_pos hk, if_pos hk, hpk, if_neg (by simp)]
      · simp only [Bool.not_eq_true] at hk
        rw [hk]
        simp

theorem lookupKey_setKey {α : Type} (l : List (String × α)) (k : String) (v : α) (k' : String) :
    lookupKey (setKey l k v) k' = if k = k' then some v else lookupKey l k' := by
  induction l with
  | nil =>
    rw [setKey, lookupKey_cons, lookupKey_nil]
    by_cases h : k = k'
    · simp [h]
    · simp [h, beq_eq_false_iff_ne.mpr h]
  | cons p rest ih =>
    rw [setKey]
    by_cases hpk : p.1 == k
    · rw [if_pos hpk, lookupKey_cons, lookupKey_cons]
      by_cases h : k = k'
      · simp [h]
      · have h2 : (p.1 == k') = false := by
          rw [beq_iff_eq.mp hpk]
          exact beq_eq_false_iff_ne.mpr h
        simp [h, beq_eq_false_iff_ne.mpr h, h2]
    · simp only [Bool.not_eq_true] at hpk
      rw [if_neg (by simp [hpk]), lookupKey_cons, lookupKey_cons, ih]
      by_cases hp' : p.1 == k'
      · have h : k ≠ k' := by
          intro hkk
          rw [hkk, hp'] at hpk
          cases hpk
        simp [hp', h]
      · simp only [Bool.not_eq_true] at hp'
        rw [hp']
        simp

theorem lookupKey_foldl_setKey {α : Type} (new : List (String × α)) :
    ∀ (st : List (String × α)) (k : String),
      (lookupKey (new.foldl (fun s p => setKey s p.1 p.2) st) k).isSome =
        ((lookupKey new k).isSome || (lookupKey st k).isSome) := by
  induction new with
  | nil =>
    intro st k
    rw [List.foldl_nil, lookupKey_nil]
    simp
  | cons p rest ih =>
    intro st k
    rw [List.foldl_cons, ih, lookupKey_cons]
    by_cases h : p.1 = k
    · rw [lookupKey_setKey]
      simp [h, beq_iff_eq.mpr h]
    · rw [lookupKey_setKey]
      simp [h, beq_eq_false_iff_ne.mpr h]

theorem lookupKey_gcStorageAfter (inp : ModelInputs) (k : String) :
    (lookupKey (gcStorageAfter inp) k).isSome = (lookupKey inp.plannerStorage k).isSome := by
  rw [gcStorageAfter, lookupKey_foldl_setKey,
    lookupKey_filter inp.oldStorage (fun n => (lookupKey inp.plannerStorage n).isSome) k]
  by_cases h : (lookupKey inp.plannerStorage k).isSome
  · simp [h]
  · simp only [Bool.not_eq_true] at h
    simp [h]

/-- C5: after a planning pass on which both per-dataset loops succeed,
`status.provisionedStorage` holds an entry for a dataset exactly when the
planner re-required storage for it (which, after a successful pass, is exactly
when a copy step was emitted for it — `moduleManager.ProvisionedStorage` is
populated per emitted copy); every entry the planner did not re-require is
removed with a bucket-deletion request, and all those deletions are emitted
before the plotter create-or-update. -/
theorem C5_provisioned_storage_iff_copy (inp : ModelInputs) (copyDatasets : List String)
    (hne : inp.entries.isEmpty = false)
    (hsucc : planningSucceeded inp = true)
    (hplan : ∀ D, ((lookupKey inp.plannerStorage D).isSome = true ↔ D ∈ copyDatasets)) :
    (∀ D, ((lookupKey (reconcileModel inp).storage D).isSome = true ↔ D ∈ copyDatasets)) ∧
    (reconcileModel inp).events =
      (gcRemoved inp).map (fun p => RecEvent.deleteBucket p.2.datasetRef) ++
        (if (reconcileModel inp).generated then [RecEvent.createOrUpdatePlotter] else []) := by
  rw [planningSucceeded, Bool.and_eq_true, Bool.not_eq_true', Bool.not_eq_true'] at hsucc
  obtain ⟨h1, h2⟩ := hsucc
  obtain ⟨hstore, hconds, hgen, hevents⟩ := reconcileModel_success inp hne h1 h2
  constructor
  · intro D
    rw [hstore, lookupKey_gcStorageAfter]
    exact hplan D
  · rw [hevents, hgen]

/-- A fixture planning pass for the storage invariant: one dataset requiring a
copy, a stale provisioned-storage entry from an earlier plan, and the new
bucket already reported provisioned. -/
def inputsWithOrphan : ModelInputs :=
  { entries := [entryGood]
    plannerStorage := [("s3/allow-dataset", { datasetRef := "bucket-new", secretRef := "creds" })]
    readyRefs := ["bucket-new"]
    oldStorage := [("s3/old-dataset", { datasetRef := "bucket-old", secretRef := "creds" })]
    c0 := { ready := false, deny := false, error := false, messages := [] } }

/-- Witness for C5: on the fixture pass the re-required dataset keeps storage,
and the orphan's bucket deletion precedes the plotter creation. -/
theorem C5_witness :
    ((lookupKey (reconcileModel inputsWithOrphan).storage "s3/allow-dataset").isSome = true ↔
      "s3/allow-dataset" ∈ ["s3/allow-dataset"]) ∧
    (reconcileModel inputsWithOrphan).events =
      (gcRemoved inputsWithOrphan).map (fun p => RecEvent.deleteBucket p.2.datasetRef) ++
        (if (reconcileModel inputsWithOrphan).generated then
          [RecEvent.createOrUpdatePlotter] else []) := by
  have h := C5_provisioned_storage_iff_copy inputsWithOrphan ["s3/allow-dataset"]
    (by rfl) (by rfl) ?_
  · exact ⟨h.1 "s3/allow-dataset", h.2⟩
  · intro D
    simp only [inputsWithOrphan]
    rw [lookupKey_cons]
    constructor
    · intro hD
      by_cases hb : "s3/allow-dataset" = D
      · simp [hb]
      · rw [if_neg (by simp [hb]), lookupKey_nil] at hD
        cases hD
    · intro hD
      rcases List.mem_singleton.mp hD with rfl
      simp

/-! Dependency closure (`CheckDependencies`): reachability, termination on
acyclic graphs, and exact characterization of the two returned lists. -/

/-- `n` is the name of a present module reachable from `m` through
module-typed dependencies on modules present in the map. -/
inductive Reaches (map : ModuleMap) : FybrikModule → String → Prop where
  | direct (m : FybrikModule) (dep : ModuleDependency) (sub : FybrikModule)
      (hdep : dep ∈ m.dependencies) (hdt : dep.dtype = DependencyType.module)
      (hsub : lookupModule map dep.name = some sub) : Reaches map m dep.name
  | step (m : FybrikModule) (dep : ModuleDependency) (sub : FybrikModule) (n : String)
      (hdep : dep ∈ m.dependencies) (hdt : dep.dtype = DependencyType.module)
      (hsub : lookupModule map dep.name = some sub) (h : Reaches map sub n) :
      Reaches map m n

/-- `n` is a module-typed dependency name encountered at some depth below `m`
(through present modules) that is absent from the map. -/
inductive MissingFrom (map : ModuleMap) : FybrikModule → String → Prop where
  | direct (m : FybrikModule) (dep : ModuleDependency)
      (hdep : dep ∈ m.dependencies) (hdt : dep.dtype = DependencyType.module)
      (hnone : lookupModule map dep.name = none) : MissingFrom map m dep.name
  | step (m : FybrikModule) (dep : ModuleDependency) (sub : FybrikModule) (n : String)
      (hdep : dep ∈ m.dependencies) (hdt : dep.dtype = DependencyType.module)
      (hsub : lookupModule map dep.name = some sub) (h : MissingFrom map sub n) :
      MissingFrom map m n

theorem checkDepsList_mono (rec₁ rec₂ : FybrikModule → Option (List String × List String))
    (map : ModuleMap)
    (h : ∀ sub r, rec₁ sub = some r → rec₂ sub = some r) :
    ∀ (l : List ModuleDependency) (r : List String × List String),
      checkDepsList rec₁ map l = some r → checkDepsList rec₂ map l = some r := by
  intro l
  induction l with
  | nil => intro r hr; exact hr
  | cons dep rest ih =>
    intro r hr
    rw [checkDepsList] at hr ⊢
    by_cases hdt : dep.dtype = DependencyType.module
    · rw [if_pos hdt] at hr ⊢
      cases hlook : lookupModule map dep.name with
      | none =>
        simp only [hlook] at hr ⊢
        cases hrest : checkDepsList rec₁ map rest with
        | none => rw [hrest] at hr; cases hr
        | some fm =>
          obtain ⟨f, ms⟩ := fm
          rw [hrest] at hr
          rw [ih (f, ms) hrest]
          exact hr
      | some sub =>
        simp only [hlook] at hr ⊢
        cases hrec : rec₁ sub with
        | none => rw [hrec] at hr; cases hr
        | some nr =>
          obtain ⟨names, notFound⟩ := nr
          cases hrest : checkDepsList rec₁ map rest with
          | none =>
            rw [hrec, hrest] at hr
            cases hr
          | some fm =>
            obtain ⟨f, ms⟩ := fm
            rw [hrec, hrest] at hr
            rw [h sub (names, notFound) hrec, ih (f, ms) hrest]
            exact hr
    · rw [if_neg hdt] at hr ⊢
      exact ih r hr

theorem checkDepsList_isSome (recurse : FybrikModule → Option (List String × List String))
    (map : ModuleMap) :
    ∀ l : List ModuleDependency,
      (∀ dep ∈ l, dep.dtype = DependencyType.module →
        ∀ sub, lookupModule map dep.name = some sub → (recurse sub).isSome = true) →
      (checkDepsList recurse map l).isSome = true := by
  intro l
  induction l with
  | nil => intro h; rfl
  | cons dep rest ih =>
    intro h
    have hrest := ih (fun d hd => h d (List.mem_cons_of_mem _ hd))
    rcases hr : checkDepsList recurse map rest with - | ⟨f, ms⟩
    · rw [hr] at hrest; cases hrest
    · rw [checkDepsList]
      by_cases hdt : dep.dtype = DependencyType.module
      · rw [if_pos hdt]
        cases hlook : lookupModule map dep.name with
        | none => simp only [hlook, hr]; rfl
        | some sub =>
          have hsubSome := h dep (List.mem_cons_self _ _) hdt sub hlook
          rcases hrec : recurse sub with - | ⟨names, notFound⟩
          · rw [hrec] at hsubSome; cases hsubSome
          · simp only [hlook, hrec, hr]; rfl
      · rw [if_neg hdt, hr]; rfl

theorem checkDepsList_mem (recurse : FybrikModule → Option (List String × List String))
    (map : ModuleMap) :
    ∀ (l : List ModuleDependency) (f ms : List String),
      checkDepsList recurse map l = some (f, ms) →
      (∀ n ∈ f, ∃ dep ∈ l, dep.dtype = DependencyType.module ∧
        ∃ sub, lookupModule map dep.name = some sub ∧
          (n = dep.name ∨ ∃ fs mss, recurse sub = some (fs, mss) ∧ n ∈ fs)) ∧
      (∀ n ∈ ms, ∃ dep ∈ l, dep.dtype = DependencyType.module ∧
        ((lookupModule map dep.name = none ∧ n = dep.name) ∨
          (∃ sub fs mss, lookupModule map dep.name = some sub ∧
            recurse sub = some (fs, mss) ∧ n ∈ mss))) := by
  intro l
  induction l with
  | nil =>
    intro f ms hr
    injection hr with hr'
    injection hr' with h₁ h₂
    subst h₁; subst h₂
    exact ⟨fun n hn => absurd hn (by simp), fun n hn => absurd hn (by simp)⟩
  | cons dep rest ih =>
    intro f ms hr
    rw [checkDepsList] at hr
    by_cases hdt : dep.dtype = DependencyType.module
    · rw [if_pos hdt] at hr
      cases hlook : lookupModule map dep.name with
      | none =>
        simp only [hlook] at hr
        cases hrest : checkDepsList recurse map rest with
        | none => rw [hrest] at hr; cases hr
        | some fm =>
          obtain ⟨f', ms'⟩ := fm
          rw [hrest] at hr
          injection hr with hr'
          injection hr' with h₁ h₂
          subst h₁; subst h₂
          obtain ⟨ihf, ihm⟩ := ih f' ms' hrest
          constructor
          · intro n hn
            obtain ⟨d, hd, hrest'⟩ := ihf n hn
            exact ⟨d, List.mem_cons_of_mem _ hd, hrest'⟩
          · intro n hn
            rcases List.mem_cons.mp hn with rfl | hn'
            · exact ⟨dep, List.mem_cons_self _ _, hdt, Or.inl ⟨hlook, rfl⟩⟩
            · obtain ⟨d, hd, hrest'⟩ := ihm n hn'
              exact ⟨d, List.mem_cons_of_mem _ hd, hrest'⟩
      | some sub =>
        simp only [hlook] at hr
        cases hrec : recurse sub with
        | none => rw [hrec] at hr; cases hr
        | some nr =>
          obtain ⟨names, notFound⟩ := nr
          cases hrest : checkDepsList recurse map rest with
          | none => rw [hrec, hrest] at hr; cases hr
          | some fm =>
            obtain ⟨f', ms'⟩ := fm
            rw [hrec, hrest] at hr
            injection hr with hr'
            injection hr' with h₁ h₂
            subst h₁; subst h₂
            obtain ⟨ihf, ihm⟩ := ih f' ms' hrest
            constructor
            · intro n hn
              rcases List.mem_cons.mp hn with rfl | hn'
              · exact ⟨dep, List.mem_cons_self _ _, hdt, sub, hlook, Or.inl rfl⟩
              · rcases List.mem_append.mp hn' with hnn | hnf
                · exact ⟨dep, List.mem_cons_self _ _, hdt, sub, hlook,
                    Or.inr ⟨names, notFound, hrec, hnn⟩⟩
                · obtain ⟨d, hd, hrest'⟩ := ihf n hnf
                  exact ⟨d, List.mem_cons_of_mem _ hd, hrest'⟩
            · intro n hn
              rcases List.mem_append.mp hn with hnn | hnm
              · exact ⟨dep, List.mem_cons_self _ _, hdt,
                  Or.inr ⟨sub, names, notFound, hlook, hrec, hnn⟩⟩
              · obtain ⟨d, hd, hrest'⟩ := ihm n hnm
                exact ⟨d, List.mem_cons_of_mem _ hd, hrest'⟩
    · rw [if_neg hdt] at hr
      obtain ⟨ihf, ihm⟩ := ih f ms hr
      constructor
      · intro n hn
        obtain ⟨d, hd, hrest'⟩ := ihf n hn
        exact ⟨d, List.mem_cons_of_mem _ hd, hrest'⟩
      · intro n hn
        obtain ⟨d, hd, hrest'⟩ := ihm n hn
        exact ⟨d, List.mem_cons_of_mem _ hd, hrest'⟩

theorem checkDepsList_complete (recurse : FybrikModule → Option (List String × List String))
    (map : ModuleMap) :
    ∀ (l : List ModuleDependency) (f ms : List String),
      checkDepsList recurse map l = some (f, ms) →
      ∀ dep ∈ l, dep.dtype = DependencyType.module →
        (lookupModule map dep.name = none → dep.name ∈ ms) ∧
        (∀ sub, lookupModule map dep.name = some sub →
          dep.name ∈ f ∧ ∃ fs mss, recurse sub = some (fs, mss) ∧
            (∀ x ∈ fs, x ∈ f) ∧ (∀ x ∈ mss, x ∈ ms)) := by
  intro l
  induction l with
  | nil => intro f ms hr dep hdep; cases hdep
  | cons dep₀ rest ih =>
    intro f ms hr dep hdep hdt
    rw [checkDepsList] at hr
    rcases List.mem_cons.mp hdep with rfl | hdep'
    · rw [if_pos hdt] at hr
      cases hlook : lookupModule map dep.name with
      | none =>
        simp only [hlook] at hr
        cases hrest : checkDepsList recurse map rest with
        | none => rw [hrest] at hr; cases hr
        | some fm =>
          obtain ⟨f', ms'⟩ := fm
          rw [hrest] at hr
          injection hr with hr'
          injection hr' with h₁ h₂
          subst h₁; subst h₂
          refine ⟨fun _ => List.mem_cons_self _ _, fun sub hsub => ?_⟩
          cases hsub
      | some sub =>
        simp only [hlook] at hr
        cases hrec : recurse sub with
        | none => rw [hrec] at hr; cases hr
        | some nr =>
          obtain ⟨names, notFound⟩ := nr
          cases hrest : checkDepsList recurse map rest with
          | none => rw [hrec, hrest] at hr; cases hr
          | some fm =>
            obtain ⟨f', ms'⟩ := fm
            rw [hrec, hrest] at hr
            injection hr with hr'
            injection hr' with h₁ h₂
            subst h₁; subst h₂
            constructor
            · intro hcontra
              cases hcontra
            · intro sub' hsub'
              injection hsub' with hsub''
              subst hsub''
              refine ⟨List.mem_cons_self _ _, names, notFound, hrec, ?_, ?_⟩
              · intro x hx
                exact List.mem_cons_of_mem _ (List.mem_append.mpr (Or.inl hx))
              · intro x hx
                exact List.mem_append.mpr (Or.inl hx)
    · by_cases hdt₀ : dep₀.dtype = DependencyType.module
      · rw [if_pos hdt₀] at hr
        cases hlook : lookupModule map dep₀.name with
        | none =>
          simp only [hlook] at hr
          cases hrest : checkDepsList recurse map rest with
          | none => rw [hrest] at hr; cases hr
          | some fm =>
            obtain ⟨f', ms'⟩ := fm
            rw [hrest] at hr
            injection hr with hr'
            injection hr' with h₁ h₂
            subst h₁; subst h₂
            obtain ⟨ihn, ihs⟩ := ih f' ms' hrest dep hdep' hdt
            refine ⟨fun hn => List.mem_cons_of_mem _ (ihn hn), fun sub hsub => ?_⟩
            obtain ⟨hf, fs, mss, hrec', hsf, hsm⟩ := ihs sub hsub
            exact ⟨hf, fs, mss, hrec', hsf, fun x hx => List.mem_cons_of_mem _ (hsm x hx)⟩
        | some sub₀ =>
          simp only [hlook] at hr
          cases hrec : recurse sub₀ with
          | none => rw [hrec] at hr; cases hr
          | some nr =>
            obtain ⟨names, notFound⟩ := nr
            cases hrest : checkDepsList recurse map rest with
            | none => rw [hrec, hrest] at hr; cases hr
            | some fm =>
              obtain ⟨f', ms'⟩ := fm
              rw [hrec, hrest] at hr
              injection hr with hr'
              injection hr' with h₁ h₂
              subst h₁; subst h₂
              obtain ⟨ihn, ihs⟩ := ih f' ms' hrest dep hdep' hdt
              constructor
              · intro hn
                exact List.mem_append.mpr (Or.inr (ihn hn))
              · intro sub hsub
                obtain ⟨hf, fs, mss, hrec', hsf, hsm⟩ := ihs sub hsub
                refine ⟨List.mem_cons_of_mem _ (List.mem_append.mpr (Or.inr hf)),
                  fs, mss, hrec', ?_, ?_⟩
                · intro x hx
                  exact List.mem_cons_of_mem _ (List.mem_append.mpr (Or.inr (hsf x hx)))
                · intro x hx
                  exact List.mem_append.mpr (Or.inr (hsm x hx))
      · rw [if_neg hdt₀] at hr
        exact ih f ms hr dep hdep' hdt

theorem lookupModule_mem (map : ModuleMap) (nm : String) (sub : FybrikModule)
    (h : lookupModule map nm = some sub) : (nm, sub) ∈ map := by
  rw [lookupModule] at h
  cases hf : map.find? (fun p => p.1 == nm) with
  | none => rw [hf] at h; cases h
  | some p =>
    obtain ⟨a, b⟩ := p
    rw [hf] at h
    injection h with h'
    have hpred := List.find?_some hf
    simp only [beq_iff_eq] at hpred
    subst hpred
    subst h'
    exact List.mem_of_find?_eq_some hf

theorem checkDependenciesFuel_mono (map : ModuleMap) :
    ∀ (fuel : Nat) (m : FybrikModule) (r : List String × List String),
      checkDependenciesFuel fuel m map = some r →
      ∀ fuel', fuel ≤ fuel' → checkDependenciesFuel fuel' m map = some r := by
  intro fuel
  induction fuel with
  | zero =>
    intro m r h
    rw [checkDependenciesFuel] at h
    cases h
  | succ fuel ih =>
    intro m r h fuel' hle
    cases fuel' with
    | zero => exact absurd hle (by omega)
    | succ fuel'' =>
      rw [checkDependenciesFuel] at h ⊢
      exact checkDepsList_mono (fun sub => checkDependenciesFuel fuel sub map)
        (fun sub => checkDependenciesFuel fuel'' sub map) map
        (fun sub r' h' => ih sub r' h' fuel'' (by omega)) m.dependencies r h

theorem checkDependenciesFuel_isSome (map : ModuleMap) (rank : String → Nat)
    (hmap : ∀ p ∈ map, ∀ d ∈ (p.2 : FybrikModule).dependencies,
      d.dtype = DependencyType.module →
      (lookupModule map d.name).isSome = true → rank d.name < rank p.1) :
    ∀ (B : Nat) (m : FybrikModule),
      (∀ d ∈ m.dependencies, d.dtype = DependencyType.module →
        (lookupModule map d.name).isSome = true → rank d.name < B) →
      (checkDependenciesFuel (B + 1) m map).isSome = true := by
  intro B
  induction B using Nat.strong_induction_on with
  | _ B ihB =>
    intro m hroot
    rw [checkDependenciesFuel]
    apply checkDepsList_isSome
    intro dep hdep hdt sub hsub
    have hlookSome : (lookupModule map dep.name).isSome = true := by rw [hsub]; rfl
    have hrank : rank dep.name < B := hroot dep hdep hdt hlookSome
    have hmem := lookupModule_mem map dep.name sub hsub
    have hsubhyp : ∀ d ∈ sub.dependencies, d.dtype = DependencyType.module →
        (lookupModule map d.name).isSome = true → rank d.name < rank dep.name :=
      fun d hd hdt' hl => hmap (dep.name, sub) hmem d hd hdt' hl
    have hs := ihB (rank dep.name) hrank sub hsubhyp
    rcases hr : checkDependenciesFuel (rank dep.name + 1) sub map with - | r
    · rw [hr] at hs; cases hs
    · rw [checkDependenciesFuel_mono map (rank dep.name + 1) sub r hr B (by omega)]
      rfl

theorem checkDependenciesFuel_sound (map : ModuleMap) :
    ∀ (fuel : Nat) (m : FybrikModule) (f ms : List String),
      checkDependenciesFuel fuel m map = some (f, ms) →
      (∀ n ∈ f, Reaches map m n) ∧ (∀ n ∈ ms, MissingFrom map m n) := by
  intro fuel
  induction fuel with
  | zero =>
    intro m f ms h
    rw [checkDependenciesFuel] at h
    cases h
  | succ fuel ih =>
    intro m f ms h
    rw [checkDependenciesFuel] at h
    obtain ⟨hf, hm⟩ :=
      checkDepsList_mem (fun sub => checkDependenciesFuel fuel sub map) map
        m.dependencies f ms h
    constructor
    · intro n hn
      obtain ⟨dep, hdep, hdt, sub, hsub, hcase⟩ := hf n hn
      rcases hcase with rfl | ⟨fs, mss, hrec, hnfs⟩
      · exact Reaches.direct m dep sub hdep hdt hsub
      · exact Reaches.step m dep sub n hdep hdt hsub ((ih sub fs mss hrec).1 n hnfs)
    · intro n hn
      obtain ⟨dep, hdep, hdt, hcase⟩ := hm n hn
      rcases hcase with ⟨hnone, rfl⟩ | ⟨sub, fs, mss, hsub, hrec, hnms⟩
      · exact MissingFrom.direct m dep hdep hdt hnone
      · exact MissingFrom.step m dep sub n hdep hdt hsub ((ih sub fs mss hrec).2 n hnms)

theorem checkDependenciesFuel_complete_found (map : ModuleMap) (m : FybrikModule) (n : String)
    (h : Reaches map m n) :
    ∀ (fuel : Nat) (f ms : List String),
      checkDependenciesFuel fuel m map = some (f, ms) → n ∈ f := by
  induction h with
  | direct m' dep sub hdep hdt hsub =>
    intro fuel f ms hr
    cases fuel with
    | zero => rw [checkDependenciesFuel] at hr; cases hr
    | succ fuel =>
      rw [checkDependenciesFuel] at hr
      exact ((checkDepsList_complete (fun sub => checkDependenciesFuel fuel sub map) map
        m'.dependencies f ms hr dep hdep hdt).2 sub hsub).1
  | step m' dep sub n' hdep hdt hsub hre ih =>
    intro fuel f ms hr
    cases fuel with
    | zero => rw [checkDependenciesFuel] at hr; cases hr
    | succ fuel =>
      rw [checkDependenciesFuel] at hr
      obtain ⟨hfmem, fs, mss, hrec, hsf, hsm⟩ :=
        (checkDepsList_complete (fun sub => checkDependenciesFuel fuel sub map) map
          m'.dependencies f ms hr dep hdep hdt).2 sub hsub
      exact hsf n' (ih fuel fs mss hrec)

theorem checkDependenciesFuel_complete_missing (map : ModuleMap) (m : FybrikModule) (n : String)
    (h : MissingFrom map m n) :
    ∀ (fuel : Nat) (f ms : List String),
      checkDependenciesFuel fuel m map = some (f, ms) → n ∈ ms := by
  induction h with
  | direct m' dep hdep hdt hnone =>
    intro fuel f ms hr
    cases fuel with
    | zero => rw [checkDependenciesFuel] at hr; cases hr
    | succ fuel =>
      rw [checkDependenciesFuel] at hr
      exact (checkDepsList_complete (fun sub => checkDependenciesFuel fuel sub map) map
        m'.dependencies f ms hr dep hdep hdt).1 hnone
  | step m' dep sub n' hdep hdt hsub hmis ih =>
    intro fuel f ms hr
    cases fuel with
    | zero => rw [checkDependenciesFuel] at hr; cases hr
    | succ fuel =>
      rw [checkDependenciesFuel] at hr
      obtain ⟨hfmem, fs, mss, hrec, hsf, hsm⟩ :=
        (checkDepsList_complete (fun sub => checkDependenciesFuel fuel sub map) map
          m'.dependencies f ms hr dep hdep hdt).2 sub hsub
      exact hsm n' (ih fuel fs mss hrec)

/-- C10: on a registry whose module-typed dependency graph (restricted to
present modules, witnessed by a rank function decreasing along present edges)
is acyclic, `CheckDependencies` terminates — past the bound its result no
longer depends on the recursion budget — and returns exactly the names of
present modules reachable through module-typed dependencies, and exactly the
module-typed dependency names that are absent from the registry at any depth.
Without visited-set tracking, acyclicity is precisely what makes the recursion
total. -/
theorem C10_dependency_closure (map : ModuleMap) (m : FybrikModule)
    (rank : String → Nat) (B : Nat)
    (hroot : ∀ d ∈ m.dependencies, d.dtype = DependencyType.module →
      (lookupModule map d.name).isSome = true → rank d.name < B)
    (hmap : ∀ p ∈ map, ∀ d ∈ (p.2 : FybrikModule).dependencies,
      d.dtype = DependencyType.module →
      (lookupModule map d.name).isSome = true → rank d.name < rank p.1) :
    ∃ found missing,
      (∀ fuel, B < fuel → checkDependenciesFuel fuel m map = some (found, missing)) ∧
      (∀ n, n ∈ found ↔ Reaches map m n) ∧
      (∀ n, n ∈ missing ↔ MissingFrom map m n) := by
  have hs := checkDependenciesFuel_isSome map rank hmap B m hroot
  rcases hr : checkDependenciesFuel (B + 1) m map with - | r
  · rw [hr] at hs; cases hs
  · obtain ⟨found, missing⟩ := r
    refine ⟨found, missing, ?_, ?_, ?_⟩
    · intro fuel hf
      exact checkDependenciesFuel_mono map (B + 1) m (found, missing) hr fuel (by omega)
    · intro n
      exact ⟨fun hn => (checkDependenciesFuel_sound map (B + 1) m found missing hr).1 n hn,
        fun hre => checkDependenciesFuel_complete_found map m n hre (B + 1) found missing hr⟩
    · intro n
      exact ⟨fun hn => (checkDependenciesFuel_sound map (B + 1) m found missing hr).2 n hn,
        fun hmi => checkDependenciesFuel_complete_missing map m n hmi (B + 1) found missing hr⟩

/-- A leaf module with no dependencies. -/
def moduleDepLeaf : FybrikModule :=
  { name := "mod-dep", capabilities := [], dependencies := [] }

/-- A module depending on one present module and one absent one. -/
def moduleMain : FybrikModule :=
  { name := "mod-main", capabilities := []
    dependencies := [{ dtype := DependencyType.module, name := "mod-dep" },
                     { dtype := DependencyType.module, name := "mod-absent" }] }

/-- A concrete acyclic registry. -/
def depWitnessMap : ModuleMap :=
  [("mod-main", moduleMain), ("mod-dep", moduleDepLeaf)]

/-- A rank function witnessing acyclicity of `depWitnessMap`. -/
def depWitnessRank : String → Nat :=
  fun n => if n = "mod-main" then 1 else 0

/-- Witness for C10 at the concrete acyclic registry. -/
theorem C10_witness :
    ∃ found missing,
      (∀ fuel, 1 < fuel →
        checkDependenciesFuel fuel moduleMain depWitnessMap = some (found, missing)) ∧
      (∀ n, n ∈ found ↔ Reaches depWitnessMap moduleMain n) ∧
      (∀ n, n ∈ missing ↔ MissingFrom depWitnessMap moduleMain n) :=
  C10_dependency_closure depWitnessMap moduleMain depWitnessRank 1 (by decide) (by decide)

end Fybrik
